import Mathlib

/-!
Shallow embedding of `main.py` (Top2000CMC price updater).

The script periodically syncs the top-2000 coin prices from a paginated,
rate-limited upstream feed into a 3-column spreadsheet grid.  The embedding
models:

* `fetch_top_coins_with_price` — the full-universe collector (lines 66-115):
  an outer loop over `PAGES` pages, an inner unbounded retry loop per page.
  The inner loop is driven by a scripted list of attempt outcomes per page
  (`FAttempt`); an exhausted script corresponds to the real code still
  spinning in its retry loop (`CollectRes.pending`).
* `update_prices_only` — the batch price refresher (lines 147-194).
* `sync_to_sheet` — the two-mode sync coordinator (lines 197-222).
* The destination worksheet as a grid `Nat → Nat → CellV` (1-based rows and
  columns), with `wks.update(values, range)` modelled by `updateRange`
  (top-left anchored rectangular write, exactly the cells present in the
  value rows are overwritten).

Timing effects (`time.sleep`) and logging are not observable in any claim and
are not modelled.  JSON payloads from the ranked-page endpoint are modelled by
`Payload`: a list of records (`arr`), a non-list value on which Python's
`len()` is defined, e.g. a dict or a string (`sized`), or a non-list value
without `len()`, e.g. a number / bool / null (`unsized`) — the distinction
matters because line 89 evaluates `len(data)` inside the `ValueError` message.
-/

set_option maxRecDepth 8000

/-- `PER_PAGE = 250` (main.py line 16). -/
def PER_PAGE : Nat := 250

/-- `TOTAL_COINS = 2000` (main.py line 17). -/
def TOTAL_COINS : Nat := 2000

/-- `PAGES = TOTAL_COINS // PER_PAGE` (main.py line 18). -/
def PAGES : Nat := TOTAL_COINS / PER_PAGE

/-- One upstream record `{"id", "symbol", "current_price"}`; `price` models
the JSON numeric value `current_price`. -/
structure Coin where
  id : String
  symbol : String
  price : Int
  deriving DecidableEq

/-- Python `str.upper()` (character-wise uppercase; the symbols at play are
ASCII tickers). -/
def upperStr (s : String) : String := String.mk (s.data.map Char.toUpper)

/-- The record appended at lines 107-111: id unchanged, symbol upper-cased,
price copied. -/
def mkRecord (c : Coin) : Coin :=
  { id := c.id, symbol := upperStr c.symbol, price := c.price }

/-- A JSON body as classified by lines 87-89 of the source. -/
inductive Payload where
  /-- a JSON array of records -/
  | arr (coins : List Coin)
  /-- a non-array JSON value on which Python `len()` is defined (dict, string);
  its length is irrelevant to control flow, only that `len()` succeeds -/
  | sized (n : Nat)
  /-- a non-array JSON value without `len()` (number, bool, null) -/
  | unsized
  deriving DecidableEq

/-- One attempt outcome of the HTTP GET at line 84 during full collection. -/
inductive FAttempt where
  /-- 2xx response whose `.json()` is the given payload -/
  | ok (p : Payload)
  /-- `raise_for_status` raised `HTTPError` with this status code -/
  | httpErr (code : Nat)
  /-- `requests.get` raised a `RequestException` -/
  | netErr
  deriving DecidableEq

/-- Result of the inner `while True` retry loop of one page (lines 75-103). -/
inductive PageRes where
  /-- line 90: payload is a list of at least `PER_PAGE` records -/
  | accepted (coins : List Coin)
  /-- line 99: non-429 `HTTPError`, the function returns the accumulator -/
  | fatal
  /-- line 89 with a `len()`-less payload: `len(data)` raises an uncaught
  `TypeError` that propagates out of the function -/
  | typeErr
  /-- the scripted attempts ran out while the code would still be retrying -/
  | pending
  deriving DecidableEq

/-- The inner per-page retry loop (lines 75-103): 429, transport errors,
short payloads and sized non-list payloads are retried; any other HTTP error
is fatal; a `len()`-less non-list payload raises `TypeError`. -/
def resolvePage (p : Nat) : List FAttempt → PageRes
  | [] => .pending
  | .ok (.arr coins) :: rest =>
      if coins.length < p then resolvePage p rest else .accepted coins
  | .ok (.sized _) :: rest => resolvePage p rest
  | .ok .unsized :: _ => .typeErr
  | .httpErr code :: rest =>
      if code = 429 then resolvePage p rest else .fatal
  | .netErr :: rest => resolvePage p rest

/-- An attempt the retry loop passes over (sleep-and-continue paths of
lines 87-103). -/
def retriableB (p : Nat) : FAttempt → Bool
  | .ok (.arr coins) => coins.length < p
  | .ok (.sized _) => true
  | .ok .unsized => false
  | .httpErr code => code = 429
  | .netErr => true

/-- `true` when an attempt list either is not accepted or is accepted with at
most `p` records (used to state the amended length bound of the collector). -/
def pageLenOK (p : Nat) (att : List FAttempt) : Bool :=
  match resolvePage p att with
  | .accepted coins => coins.length ≤ p
  | _ => true

/-- Overall result of `fetch_top_coins_with_price`. -/
inductive CollectRes where
  /-- the function returned this list (line 99 or line 115) -/
  | done (items : List Coin)
  /-- an uncaught `TypeError` propagated out -/
  | typeErr
  /-- a retry loop outran its scripted attempts -/
  | pending
  deriving DecidableEq

/-- Total element lookup with default (used in place of Python indexing). -/
def nth : List α → Nat → α → α
  | [], _, d => d
  | a :: _, 0, _ => a
  | _ :: l, i + 1, d => nth l i d

/-- The outer page loop of `fetch_top_coins_with_price` (lines 73-115):
`oracle` holds, per remaining page, the scripted attempt outcomes.  On fatal
abort the accumulator is returned unsliced (line 99); on completion it is
sliced to `TOTAL_COINS` (line 115). -/
def collectGo (p t : Nat) : List (List FAttempt) → Nat → List Coin → CollectRes
  | _, 0, acc => .done (acc.take t)
  | oracle, n + 1, acc =>
      match resolvePage p (nth oracle 0 []) with
      | .pending => .pending
      | .typeErr => .typeErr
      | .fatal => .done acc
      | .accepted coins =>
          collectGo p t (oracle.drop 1) n (acc ++ coins.map mkRecord)

/-- `fetch_top_coins_with_price`, parametric in the two module constants
(the algorithm of lines 66-115 with `PER_PAGE := p`, `TOTAL_COINS := t`). -/
def fetchPages (p t : Nat) (oracle : List (List FAttempt)) : CollectRes :=
  collectGo p t oracle (t / p) []

/-- `fetch_top_coins_with_price` at the source constants. -/
def fetch_top_coins_with_price (oracle : List (List FAttempt)) : CollectRes :=
  fetchPages PER_PAGE TOTAL_COINS oracle

/-- Length of a returned collection, when one was returned. -/
def resultLen : CollectRes → Option Nat
  | .done items => some items.length
  | _ => none

/-- Id column of a returned collection, when one was returned. -/
def resultIds : CollectRes → Option (List String)
  | .done items => some (items.map (fun c => c.id))
  | _ => none

/-- One attempt outcome of the HTTP GET at line 166 during a refresh batch.
The refresher (lines 156-183) performs no payload-shape check: a 2xx body is
used as-is, so the success payload is modelled directly as a record list. -/
inductive RAttempt where
  | ok (data : List Coin)
  | httpErr (code : Nat)
  | netErr
  deriving DecidableEq

/-- The inner per-batch retry loop (lines 156-183): 429 and transport errors
are retried; any other HTTP error degrades the batch to `data = []`
(line 178) and breaks.  `none` means the scripted attempts ran out. -/
def resolveBatch : List RAttempt → Option (List Coin)
  | [] => none
  | .ok data :: _ => some data
  | .httpErr code :: rest =>
      if code = 429 then resolveBatch rest else some []
  | .netErr :: rest => resolveBatch rest

/-- `price_map = {c["id"]: c["current_price"] for c in data}` followed by
`price_map.get(coin_id, "")` (lines 185-187): the dict comprehension keeps the
last record for a duplicated id, `.get` misses give the `""` sentinel
(modelled as `none`). -/
def lookupPrice (data : List Coin) (id : String) : Option Int :=
  (data.reverse.find? (fun c => c.id == id)).map (fun c => c.price)

/-- Fuelled chunking worker; the fuel (an upper bound on the list length)
only makes the recursion structural, it does not affect the result for the
positive chunk sizes used by the source. -/
def chunksOfF : Nat → Nat → List α → List (List α)
  | _, _, [] => []
  | 0, _, _ :: _ => []
  | fuel + 1, n, a :: l' => (a :: l').take n :: chunksOfF fuel n ((a :: l').drop n)

/-- `for i in range(0, total, n)` slicing `l[i:i+n]` (lines 154-155).  The
`n = 0` case never occurs at call sites (`PER_PAGE = 250`; Python would raise
on a zero step). -/
def chunksOf (n : Nat) (l : List α) : List (List α) := chunksOfF l.length n l

/-- The batch loop of `update_prices_only` (lines 154-189): each batch is
resolved against its scripted attempts, then every id of the chunk is looked
up in the batch response.  `none` overall means some batch never resolved
(the real code would still be sleeping and retrying). -/
def runBatches : List (List RAttempt) → List (List String) → Option (List (Option Int))
  | _, [] => some []
  | oracle, chunk :: rest =>
      match resolveBatch (nth oracle 0 []), runBatches (oracle.drop 1) rest with
      | some data, some ps => some (chunk.map (fun id => lookupPrice data id) ++ ps)
      | _, _ => none

/-- The `prices` list accumulated by `update_prices_only` before the range
write (lines 152-188). -/
def refresh_prices (oracle : List (List RAttempt)) (ids : List String) :
    Option (List (Option Int)) :=
  runBatches oracle (chunksOf PER_PAGE ids)

/-- A spreadsheet cell value. -/
inductive CellV where
  | str (s : String)
  | num (p : Int)
  | blank
  deriving DecidableEq

/-- The worksheet grid, 1-based in both coordinates. -/
abbrev Grid := Nat → Nat → CellV

/-- `wks.update(values, range)`: a rectangular write anchored at
`(r0, c0)`; exactly the cells covered by the given value rows are
overwritten, everything else keeps its old value. -/
def updateRange (g : Grid) (r0 c0 : Nat) (vals : List (List CellV)) : Grid :=
  fun r c =>
    if r0 ≤ r ∧ c0 ≤ c ∧ r - r0 < vals.length ∧ c - c0 < (nth vals (r - r0) []).length then
      nth (nth vals (r - r0) []) (c - c0) CellV.blank
    else g r c

/-- The cell written for one refresh price: the number, or the `""` sentinel
(line 187). -/
def cellOf : Option Int → CellV
  | some p => .num p
  | none => .str ""

/-- `write_full_table` (lines 132-144): header plus one `[id, symbol, price]`
row per coin, written at `A1`. -/
def write_full_table (g : Grid) (coins : List Coin) : Grid :=
  updateRange g 1 1
    ([CellV.str "ID", CellV.str "Ticker", CellV.str "Price (USD)"] ::
      coins.map (fun c => [CellV.str c.id, CellV.str c.symbol, CellV.num c.price]))

/-- `update_prices_only` (lines 147-194): accumulate the prices column, then
write it at `C2` (range `C2:C{total+1}`). -/
def update_prices_only (oracle : List (List RAttempt)) (ids : List String) (g : Grid) :
    Option Grid :=
  (refresh_prices oracle ids).map
    (fun ps => updateRange g 2 3 (ps.map (fun p => [cellOf p])))

/-- `wks.acell("A1").value` (line 202): the stored string, a numeric cell
rendered as text, or `None` for an empty cell. -/
def acellA1 (g : Grid) : Option String :=
  match g 1 1 with
  | .str s => some s
  | .num n => some (toString n)
  | .blank => none

/-- How gspread renders a cell in `col_values`. -/
def cellStr : CellV → String
  | .str s => s
  | .num n => toString n
  | .blank => ""

/-- gspread `col_values` drops trailing empty cells. -/
def stripTrailingEmpty (l : List String) : List String :=
  (l.reverse.dropWhile (fun s => s == "")).reverse

/-- `wks.col_values(1)` over the worksheet's `TOTAL_COINS + 1` rows
(`ensure_worksheet` creates that many, line 125). -/
def col_values (g : Grid) (nrows : Nat) : List String :=
  stripTrailingEmpty ((List.range nrows).map (fun r => cellStr (g (r + 1) 1)))

/-- `wks.col_values(1)[1:TOTAL_COINS + 1]` (line 221). -/
def fallback_ids (g : Grid) : List String :=
  ((col_values g (TOTAL_COINS + 1)).drop 1).take TOTAL_COINS

/-- `load_frozen_coins` (lines 45-55): the cache is valid only when it holds
at least `TOTAL_COINS` ids, and is truncated to exactly `TOTAL_COINS`; a
missing or unreadable file is `none`. -/
def load_frozen_coins (cache : Option (List String)) : Option (List String) :=
  match cache with
  | some data =>
      if TOTAL_COINS ≤ data.length then some (data.take TOTAL_COINS) else none
  | none => none

/-- The persistent world the sync touches: the worksheet grid and the local
`frozen_coins.json` cache (`none` = file absent or unreadable). -/
structure SysState where
  grid : Grid
  cache : Option (List String)

/-- Result of one `sync_to_sheet` run. -/
inductive SyncRes where
  /-- the run returned, leaving this state -/
  | done (s : SysState)
  /-- a retry loop outran its scripted attempts -/
  | pending
  /-- an uncaught exception propagated out of the run -/
  | crash

/-- Projection used to name the state of a finished run. -/
def stateOf : SyncRes → SysState
  | .done s => s
  | _ => ⟨fun _ _ => CellV.blank, none⟩

/-- Id universe used by a refresh run (lines 218-221): the local cache when it
loads and is non-falsy, otherwise the worksheet's column A. -/
def refresh_ids (s : SysState) : List String :=
  match load_frozen_coins s.cache with
  | some l => if l.isEmpty then fallback_ids s.grid else l
  | none => fallback_ids s.grid

/-- `sync_to_sheet` (lines 197-222).  `a1Fails` scripts whether the `acell`
read at line 202 raises (then `header = None`, line 204).  The first branch
is the uninitialized full load (lines 206-215): abort on an empty collection,
else full-table write plus cache save (modelled as succeeding; a failed save
only logs).  The second branch is the price-only refresh (lines 216-222) with
the cache / column-A fallback choice of ids. -/
def sync_to_sheet (a1Fails : Bool) (fO : List (List FAttempt))
    (rO : List (List RAttempt)) (s : SysState) : SyncRes :=
  let header : Option String := if a1Fails then none else acellA1 s.grid
  if header ≠ some "ID" then
    match fetch_top_coins_with_price fO with
    | .pending => .pending
    | .typeErr => .crash
    | .done coins =>
        if coins.isEmpty then .done s
        else .done ⟨write_full_table s.grid coins, some (coins.map (fun c => c.id))⟩
  else
    match update_prices_only rO (refresh_ids s) s.grid with
    | some g => .done ⟨g, s.cache⟩
    | none => .pending

/-- Concatenation of page payloads in fetch order. -/
def flat : List (List α) → List α
  | [] => []
  | l :: ls => l ++ flat ls

/-! ### Generic list lemmas for the total indexing function `nth` -/

theorem nth_cons_zero (a : α) (l : List α) (d : α) : nth (a :: l) 0 d = a := rfl

theorem nth_cons_succ (a : α) (l : List α) (i : Nat) (d : α) :
    nth (a :: l) (i + 1) d = nth l i d := rfl

theorem nth_map (f : α → β) :
    ∀ (l : List α) (i : Nat) (d : β) (d' : α), i < l.length →
      nth (l.map f) i d = f (nth l i d')
  | a :: l, 0, _, _, _ => rfl
  | a :: l, i + 1, d, d', h =>
      nth_map f l i d d' (Nat.lt_of_succ_lt_succ (by simpa using h))
  | [], i, d, d', h => absurd h (by simp)

theorem nth_append_left :
    ∀ (l₁ l₂ : List α) (i : Nat) (d : α), i < l₁.length →
      nth (l₁ ++ l₂) i d = nth l₁ i d
  | a :: l₁, l₂, 0, _, _ => rfl
  | a :: l₁, l₂, i + 1, d, h =>
      nth_append_left l₁ l₂ i d (Nat.lt_of_succ_lt_succ (by simpa using h))
  | [], _, i, _, h => absurd h (by simp)

theorem nth_append_right :
    ∀ (l₁ l₂ : List α) (i : Nat) (d : α), l₁.length ≤ i →
      nth (l₁ ++ l₂) i d = nth l₂ (i - l₁.length) d
  | [], l₂, i, d, _ => by simp [nth]
  | a :: l₁, l₂, i + 1, d, h => by
      have := nth_append_right l₁ l₂ i d (Nat.le_of_succ_le_succ (by simpa using h))
      simpa [nth_cons_succ, Nat.succ_sub_succ] using this
  | a :: l₁, l₂, 0, d, h => absurd h (by simp)

theorem nth_take :
    ∀ (l : List α) (n i : Nat) (d : α), i < n → nth (l.take n) i d = nth l i d
  | [], _, _, _, _ => by simp
  | a :: l, n + 1, 0, d, _ => rfl
  | a :: l, n + 1, i + 1, d, h =>
      nth_take l n i d (Nat.lt_of_succ_lt_succ h)
  | a :: l, 0, i, d, h => absurd h (by simp)

theorem nth_drop :
    ∀ (l : List α) (n i : Nat) (d : α), nth (l.drop n) i d = nth l (n + i) d
  | _, 0, _, _ => by simp [Nat.zero_add]
  | [], n + 1, i, d => by simp [nth]
  | a :: l, n + 1, i, d => by
      have := nth_drop l n i d
      simpa [Nat.succ_add] using this

/-! ### Lemmas about `flat` -/

theorem length_flat_ge (p : Nat) :
    ∀ (ds : List (List α)), (∀ k, k < ds.length → p ≤ (nth ds k []).length) →
      ds.length * p ≤ (flat ds).length
  | [], _ => by simp [flat]
  | d :: ds, h => by
      have hd : p ≤ d.length := h 0 (by simp)
      have ht := length_flat_ge p ds (fun k hk => by
        have := h (k + 1) (by simpa using Nat.succ_lt_succ hk)
        simpa [nth_cons_succ] using this)
      simp only [flat, List.length_append, List.length_cons, Nat.succ_mul]
      omega

theorem length_flat_eq (p : Nat) :
    ∀ (ds : List (List α)), (∀ k, k < ds.length → (nth ds k []).length = p) →
      (flat ds).length = ds.length * p
  | [], _ => by simp [flat]
  | d :: ds, h => by
      have hd : d.length = p := h 0 (by simp)
      have ht := length_flat_eq p ds (fun k hk => by
        have := h (k + 1) (by simpa using Nat.succ_lt_succ hk)
        simpa [nth_cons_succ] using this)
      simp only [flat, List.length_append, List.length_cons, Nat.succ_mul]
      omega

/-! ### Behaviour of `chunksOf` and `runBatches` -/

theorem chunksOf_nil (n : Nat) : chunksOf n ([] : List α) = [] := rfl

theorem chunksOfF_fuel_irrel :
    ∀ (fuel fuel' n : Nat) (l : List α), 1 ≤ n → l.length ≤ fuel → l.length ≤ fuel' →
      chunksOfF fuel n l = chunksOfF fuel' n l
  | fuel, fuel', _, [], _, _, _ => by cases fuel <;> cases fuel' <;> rfl
  | fuel + 1, fuel' + 1, n, a :: l', hn, h1, h2 => by
      simp only [chunksOfF]
      congr 1
      refine chunksOfF_fuel_irrel fuel fuel' n ((a :: l').drop n) hn ?_ ?_ <;>
        · simp only [List.length_drop, List.length_cons]
          simp only [List.length_cons] at h1 h2
          omega
  | 0, _, n, a :: l', _, h1, _ => by simp at h1
  | _ + 1, 0, n, a :: l', _, _, h2 => by simp at h2

theorem chunksOf_cons (n : Nat) (a : α) (l : List α) :
    chunksOf (n + 1) (a :: l) =
      (a :: l).take (n + 1) :: chunksOf (n + 1) ((a :: l).drop (n + 1)) := by
  simp only [chunksOf, List.length_cons, chunksOfF]
  congr 1
  refine chunksOfF_fuel_irrel l.length ((a :: l).drop (n + 1)).length (n + 1)
    ((a :: l).drop (n + 1)) (by omega) ?_ (le_refl _)
  simp only [List.length_drop, List.length_cons]
  omega

/-- Core specification of the refresher's accumulation loop: when every batch
resolves, the output has one entry per input id, in input order, and the entry
at position `i` is the price-map lookup of id `i` in the response of batch
`i / chunk-size`. -/
theorem runBatches_spec (m : Nat) :
    ∀ (N : Nat) (ids : List String), ids.length ≤ N →
      ∀ (rO : List (List RAttempt)) (ps : List (Option Int)),
        runBatches rO (chunksOf (m + 1) ids) = some ps →
        ps.length = ids.length ∧
        ∀ i, i < ids.length →
          ∃ d, resolveBatch (nth rO (i / (m + 1)) []) = some d ∧
            nth ps i none = lookupPrice d (nth ids i "") := by
  intro N
  induction N with
  | zero =>
      intro ids hlen rO ps h
      have hids : ids = [] := List.eq_nil_of_length_eq_zero (Nat.le_zero.mp hlen)
      subst hids
      simp only [chunksOf_nil, runBatches] at h
      cases h
      exact ⟨rfl, fun i hi => absurd hi (by simp)⟩
  | succ N ih =>
      intro ids hlen rO ps h
      cases ids with
      | nil =>
          simp only [chunksOf_nil, runBatches] at h
          cases h
          exact ⟨rfl, fun i hi => absurd hi (by simp)⟩
      | cons a l =>
          rw [chunksOf_cons] at h
          simp only [runBatches] at h
          cases hb : resolveBatch (nth rO 0 []) with
          | none => rw [hb] at h; cases h
          | some data =>
              rw [hb] at h
              cases hrest : runBatches (rO.drop 1) (chunksOf (m + 1) ((a :: l).drop (m + 1))) with
              | none => rw [hrest] at h; cases h
              | some tailPs =>
                  rw [hrest] at h
                  cases h
                  have hdroplen : ((a :: l).drop (m + 1)).length ≤ N := by
                    simp only [List.length_drop, List.length_cons]
                    have : l.length ≤ N := Nat.le_of_succ_le_succ (by simpa using hlen)
                    omega
                  obtain ⟨htlen, htail⟩ := ih ((a :: l).drop (m + 1)) hdroplen (rO.drop 1) tailPs hrest
                  constructor
                  · rw [List.length_append, List.length_map, List.length_take, htlen,
                      List.length_drop]
                    simp only [List.length_cons]
                    omega
                  · intro i hi
                    by_cases him : i < m + 1
                    · -- position inside the first chunk
                      have hdiv : i / (m + 1) = 0 := Nat.div_eq_of_lt him
                      have himin : i < ((a :: l).take (m + 1)).length := by
                        simp only [List.length_take, List.length_cons]
                        simp only [List.length_cons] at hi
                        omega
                      refine ⟨data, by simpa [hdiv] using hb, ?_⟩
                      have h1 : nth ((((a :: l).take (m + 1)).map
                          (fun id => lookupPrice data id)) ++ tailPs) i none =
                          nth (((a :: l).take (m + 1)).map (fun id => lookupPrice data id)) i none :=
                        nth_append_left _ _ i none (by simpa using himin)
                      rw [h1, nth_map _ _ _ _ "" himin, nth_take _ _ _ _ him]
                    · -- position in a later chunk
                      push_neg at him
                      have hdiv : i / (m + 1) = (i - (m + 1)) / (m + 1) + 1 :=
                        Nat.div_eq_sub_div (Nat.succ_pos m) him
                      have hmaplen : (((a :: l).take (m + 1)).map
                          (fun id => lookupPrice data id)).length = m + 1 := by
                        simp only [List.length_map, List.length_take, List.length_cons]
                        simp only [List.length_cons] at hi
                        omega
                      have hi' : i - (m + 1) < ((a :: l).drop (m + 1)).length := by
                        simp only [List.length_drop, List.length_cons]
                        simp only [List.length_cons] at hi
                        omega
                      obtain ⟨d, hd, hv⟩ := htail (i - (m + 1)) hi'
                      refine ⟨d, ?_, ?_⟩
                      · rw [hdiv]
                        have : nth (rO.drop 1) ((i - (m + 1)) / (m + 1)) ([] : List RAttempt) =
                            nth rO ((i - (m + 1)) / (m + 1) + 1) [] := by
                          rw [nth_drop]; ring_nf
                        rw [← this]; exact hd
                      · have hle : (((a :: l).take (m + 1)).map
                            (fun id => lookupPrice data id)).length ≤ i := by
                          rw [hmaplen]; omega
                        have h1 : nth ((((a :: l).take (m + 1)).map
                            (fun id => lookupPrice data id)) ++ tailPs) i none =
                            nth tailPs (i - (m + 1)) none := by
                          rw [nth_append_right _ _ i none hle, hmaplen]
                        rw [h1, hv, nth_drop]
                        have hidx : m + 1 + (i - (m + 1)) = i := by omega
                        rw [hidx]

/-! ### Behaviour of the full-universe collector -/

theorem resolvePage_accepted_ge (p : Nat) :
    ∀ (att : List FAttempt) (coins : List Coin),
      resolvePage p att = .accepted coins → p ≤ coins.length
  | [], coins, h => by simp [resolvePage] at h
  | .ok (.arr cs) :: rest, coins, h => by
      simp only [resolvePage] at h
      by_cases hlt : cs.length < p
      · rw [if_pos hlt] at h; exact resolvePage_accepted_ge p rest coins h
      · rw [if_neg hlt] at h
        cases h
        omega
  | .ok (.sized _) :: rest, coins, h =>
      resolvePage_accepted_ge p rest coins (by simpa [resolvePage] using h)
  | .ok .unsized :: _, coins, h => by simp [resolvePage] at h
  | .httpErr code :: rest, coins, h => by
      simp only [resolvePage] at h
      by_cases hc : code = 429
      · rw [if_pos hc] at h; exact resolvePage_accepted_ge p rest coins h
      · rw [if_neg hc] at h; cases h
  | .netErr :: rest, coins, h =>
      resolvePage_accepted_ge p rest coins (by simpa [resolvePage] using h)

/-- Attempts the retry loop passes over do not affect the page result. -/
theorem resolvePage_skip (p : Nat) :
    ∀ (pre rest : List FAttempt), (∀ a ∈ pre, retriableB p a = true) →
      resolvePage p (pre ++ rest) = resolvePage p rest
  | [], rest, _ => rfl
  | a :: pre, rest, h => by
      have ha : retriableB p a = true := h a (by simp)
      have hpre : ∀ b ∈ pre, retriableB p b = true := fun b hb => h b (by simp [hb])
      cases a with
      | ok payload =>
          cases payload with
          | arr coins =>
              have hlt : coins.length < p := by simpa [retriableB] using ha
              simp only [List.cons_append, resolvePage, if_pos hlt]
              exact resolvePage_skip p pre rest hpre
          | sized n =>
              simp only [List.cons_append, resolvePage]
              exact resolvePage_skip p pre rest hpre
          | unsized => simp [retriableB] at ha
      | httpErr code =>
          have hc : code = 429 := by simpa [retriableB] using ha
          simp only [List.cons_append, resolvePage, if_pos hc]
          exact resolvePage_skip p pre rest hpre
      | netErr =>
          simp only [List.cons_append, resolvePage]
          exact resolvePage_skip p pre rest hpre

/-- Completion path: when the next `n` pages all resolve to accepted payloads
`ds`, the collector consumes them in order and returns the accumulated records
sliced to `t`. -/
theorem collectGo_complete (p t : Nat) :
    ∀ (n : Nat) (ds : List (List Coin)) (oracle : List (List FAttempt)) (acc : List Coin),
      ds.length = n →
      (∀ k, k < n → resolvePage p (nth oracle k []) = .accepted (nth ds k [])) →
      collectGo p t oracle n acc = .done ((acc ++ (flat ds).map mkRecord).take t)
  | 0, ds, oracle, acc, hds, _ => by
      have : ds = [] := List.eq_nil_of_length_eq_zero hds
      subst this
      simp [collectGo, flat]
  | n + 1, [], oracle, acc, hds, _ => by simp at hds
  | n + 1, d :: ds, oracle, acc, hds, h => by
      have h0 : resolvePage p (nth oracle 0 []) = .accepted d := by
        simpa [nth_cons_zero] using h 0 (Nat.succ_pos n)
      have hshift : ∀ k, k < n → resolvePage p (nth (oracle.drop 1) k []) = .accepted (nth ds k []) := by
        intro k hk
        have := h (k + 1) (Nat.succ_lt_succ hk)
        rw [nth_drop, Nat.add_comm]
        simpa [nth_cons_succ] using this
      have ih := collectGo_complete p t n ds (oracle.drop 1) (acc ++ d.map mkRecord)
        (by simpa using hds) hshift
      simp only [collectGo, h0, ih]
      rw [flat, List.map_append, List.append_assoc]

/-- Fatal-abort path: accepted pages `ds` followed by a page whose retry loop
hits a non-429 HTTP error; the collector returns the accumulation unsliced
and never looks at later pages. -/
theorem collectGo_fatal (p t : Nat) :
    ∀ (k n : Nat) (ds : List (List Coin)) (oracle : List (List FAttempt)) (acc : List Coin),
      ds.length = k → k < n →
      (∀ j, j < k → resolvePage p (nth oracle j []) = .accepted (nth ds j [])) →
      resolvePage p (nth oracle k []) = .fatal →
      collectGo p t oracle n acc = .done (acc ++ (flat ds).map mkRecord)
  | 0, n, ds, oracle, acc, hds, hn, _, hf => by
      have : ds = [] := List.eq_nil_of_length_eq_zero hds
      subst this
      cases n with
      | zero => omega
      | succ n => simp [collectGo, hf, flat]
  | k + 1, n, [], oracle, acc, hds, _, _, _ => by simp at hds
  | k + 1, n, d :: ds, oracle, acc, hds, hn, h, hf => by
      cases n with
      | zero => omega
      | succ n =>
          have h0 : resolvePage p (nth oracle 0 []) = .accepted d := by
            simpa [nth_cons_zero] using h 0 (Nat.succ_pos k)
          have hshift : ∀ j, j < k → resolvePage p (nth (oracle.drop 1) j []) = .accepted (nth ds j []) := by
            intro j hj
            have := h (j + 1) (Nat.succ_lt_succ hj)
            rw [nth_drop, Nat.add_comm]
            simpa [nth_cons_succ] using this
          have hf' : resolvePage p (nth (oracle.drop 1) k []) = .fatal := by
            rw [nth_drop, Nat.add_comm]
            simpa [nth_cons_succ] using hf
          have ih := collectGo_fatal p t k n ds (oracle.drop 1) (acc ++ d.map mkRecord)
            (by simpa using hds) (by omega) hshift hf'
          simp only [collectGo, h0, ih]
          rw [flat, List.map_append, List.append_assoc]

/-- Length bound for the source constants: as long as no accepted page
over-delivers (more than `PER_PAGE` records), any returned collection has at
most `TOTAL_COINS` records, on both the completion and the fatal-abort path. -/
theorem collectGo_len_bound :
    ∀ (n : Nat) (oracle : List (List FAttempt)) (acc : List Coin) (items : List Coin),
      oracle.all (pageLenOK 250) = true →
      acc.length + n * 250 ≤ 2000 →
      collectGo 250 2000 oracle n acc = .done items →
      items.length ≤ 2000
  | 0, oracle, acc, items, _, hb, h => by
      simp only [collectGo] at h
      cases h
      exact le_trans (List.length_take_le _ _) (le_refl _)
  | n + 1, oracle, acc, items, hall, hb, h => by
      simp only [collectGo] at h
      cases hres : resolvePage 250 (nth oracle 0 []) with
      | pending => rw [hres] at h; cases h
      | typeErr => rw [hres] at h; cases h
      | fatal =>
          rw [hres] at h
          cases h
          omega
      | accepted coins =>
          rw [hres] at h
          cases oracle with
          | nil => simp [nth, resolvePage] at hres
          | cons o oracle' =>
              have hok : pageLenOK 250 o = true := by
                have := List.all_eq_true.mp hall o (by simp)
                exact this
              have hclen : coins.length ≤ 250 := by
                rw [nth_cons_zero] at hres
                simp only [pageLenOK, hres] at hok
                exact_mod_cast by simpa using hok
              have hall' : oracle'.all (pageLenOK 250) = true :=
                List.all_eq_true.mpr (fun b hb' => List.all_eq_true.mp hall b (by simp [hb']))
              have hb' : (acc ++ coins.map mkRecord).length + n * 250 ≤ 2000 := by
                simp only [List.length_append, List.length_map]
                omega
              exact collectGo_len_bound n oracle' (acc ++ coins.map mkRecord) items hall' hb'
                (by simpa using h)

/-! ### Frame lemmas for range writes -/

theorem updateRange_row_lt (g : Grid) (r0 c0 : Nat) (vals : List (List CellV))
    (r c : Nat) (h : r < r0) : updateRange g r0 c0 vals r c = g r c := by
  simp only [updateRange]
  rw [if_neg]
  intro hc
  exact absurd hc.1 (by omega)

theorem updateRange_row_ge (g : Grid) (r0 c0 : Nat) (vals : List (List CellV))
    (r c : Nat) (h : r0 + vals.length ≤ r) : updateRange g r0 c0 vals r c = g r c := by
  simp only [updateRange]
  rw [if_neg]
  intro hc
  exact absurd hc.2.2.1 (by omega)

/-- A single-column write (the refresher's `C2:C...` range) leaves every other
column untouched. -/
theorem updateRange_col_ne (g : Grid) (r0 c0 : Nat) (ps : List (Option Int))
    (r c : Nat) (h : c ≠ c0) :
    updateRange g r0 c0 (ps.map (fun p => [cellOf p])) r c = g r c := by
  simp only [updateRange]
  rw [if_neg]
  rintro ⟨h1, h2, h3, h4⟩
  have hrow : nth (ps.map (fun p => [cellOf p])) (r - r0) ([] : List CellV) =
      [cellOf (nth ps (r - r0) none)] := by
    refine nth_map _ ps (r - r0) _ none ?_
    simpa using h3
  rw [hrow] at h4
  simp only [List.length_cons, List.length_nil] at h4
  omega

/-- A single-column write hits exactly the addressed cells. -/
theorem updateRange_hit (g : Grid) (r0 c0 : Nat) (ps : List (Option Int))
    (r : Nat) (h1 : r0 ≤ r) (h2 : r - r0 < ps.length) :
    updateRange g r0 c0 (ps.map (fun p => [cellOf p])) r c0 = cellOf (nth ps (r - r0) none) := by
  simp only [updateRange]
  have hrow : nth (ps.map (fun p => [cellOf p])) (r - r0) ([] : List CellV) =
      [cellOf (nth ps (r - r0) none)] := nth_map _ ps (r - r0) _ none h2
  rw [if_pos]
  · rw [hrow]
    simp [Nat.sub_self, nth_cons_zero]
  · refine ⟨h1, le_refl _, by simpa using h2, ?_⟩
    rw [hrow]
    simp

/-! ### Branch characterizations of the sync coordinator -/

theorem acellA1_str (g : Grid) (s : String) (h : g 1 1 = CellV.str s) :
    acellA1 g = some s := by
  unfold acellA1
  rw [h]

/-- With the header marker in place and a readable `A1`, a run is exactly the
price-only refresh. -/
theorem sync_refresh_branch (fO : List (List FAttempt)) (rO : List (List RAttempt))
    (s : SysState) (h : s.grid 1 1 = CellV.str "ID") :
    sync_to_sheet false fO rO s =
      match update_prices_only rO (refresh_ids s) s.grid with
      | some g => SyncRes.done ⟨g, s.cache⟩
      | none => SyncRes.pending := by
  have ha : acellA1 s.grid = some "ID" := acellA1_str s.grid "ID" h
  simp [sync_to_sheet, ha]

/-- Without the header marker (or with a failed `A1` read), a run is exactly
the full load. -/
theorem sync_full_branch (a1Fails : Bool) (fO : List (List FAttempt))
    (rO : List (List RAttempt)) (s : SysState)
    (h : (if a1Fails then none else acellA1 s.grid) ≠ some "ID") :
    sync_to_sheet a1Fails fO rO s =
      match fetch_top_coins_with_price fO with
      | .pending => SyncRes.pending
      | .typeErr => SyncRes.crash
      | .done coins =>
          if coins.isEmpty then SyncRes.done s
          else SyncRes.done ⟨write_full_table s.grid coins, some (coins.map (fun c => c.id))⟩ := by
  simp only [sync_to_sheet, if_pos h]

/-- A valid cache wins over the column-A fallback and is truncated to
`TOTAL_COINS` ids. -/
theorem refresh_ids_cache (s : SysState) (l : List String) (hc : s.cache = some l)
    (hl : TOTAL_COINS ≤ l.length) : refresh_ids s = l.take TOTAL_COINS := by
  have hlen : (l.take TOTAL_COINS).length = TOTAL_COINS := by
    rw [List.length_take]
    omega
  simp only [refresh_ids, load_frozen_coins, hc, if_pos hl]
  cases htake : l.take TOTAL_COINS with
  | nil =>
      rw [htake] at hlen
      simp [TOTAL_COINS] at hlen
  | cons a t => simp [List.isEmpty]

/-! ### Symbolic evaluation lemmas for replicate-shaped scenarios -/

theorem nth_replicate :
    ∀ (n k : Nat) (a d : α), k < n → nth (List.replicate n a) k d = a
  | n + 1, 0, a, d, _ => by rw [List.replicate_succ]; rfl
  | n + 1, k + 1, a, d, h => by
      rw [List.replicate_succ, nth_cons_succ]
      exact nth_replicate n k a d (Nat.lt_of_succ_lt_succ h)
  | 0, k, a, d, h => absurd h (by omega)

theorem flat_singleton (l : List α) : flat [l] = l := by
  simp [flat]

theorem flat_replicate_replicate :
    ∀ (q k : Nat) (a : α), flat (List.replicate q (List.replicate k a)) = List.replicate (q * k) a
  | 0, k, a => by simp [flat]
  | q + 1, k, a => by
      rw [List.replicate_succ, flat, flat_replicate_replicate q k a, Nat.succ_mul,
        Nat.add_comm (q * k) k, List.replicate_add]

theorem drop_replicate :
    ∀ (n m : Nat) (a : α), (List.replicate m a).drop n = List.replicate (m - n) a
  | 0, m, a => by simp
  | n + 1, 0, a => by simp
  | n + 1, m + 1, a => by
      rw [List.replicate_succ, List.drop_succ_cons, drop_replicate n m a,
        Nat.succ_sub_succ]

theorem chunksOf_replicate :
    ∀ (q m : Nat) (a : α),
      chunksOf (m + 1) (List.replicate (q * (m + 1)) a) =
        List.replicate q (List.replicate (m + 1) a)
  | 0, m, a => by simp [chunksOf_nil]
  | q + 1, m, a => by
      have hsplit : (q + 1) * (m + 1) = (q * (m + 1) + m) + 1 := by ring
      rw [hsplit, List.replicate_succ, chunksOf_cons, ← List.replicate_succ]
      have htake : (List.replicate (q * (m + 1) + m + 1) a).take (m + 1) =
          List.replicate (m + 1) a := by
        rw [List.take_replicate]
        congr 1
        omega
      have hdrop : (List.replicate (q * (m + 1) + m + 1) a).drop (m + 1) =
          List.replicate (q * (m + 1)) a := by
        rw [drop_replicate]
        congr 1
        omega
      rw [htake, hdrop, chunksOf_replicate q m a]
      exact (List.replicate_succ _ _).symm

theorem lookupPrice_nil (id : String) : lookupPrice [] id = none := rfl

theorem map_lookupPrice_nil :
    ∀ (chunk : List String),
      chunk.map (fun id => lookupPrice [] id) = List.replicate chunk.length none
  | [] => rfl
  | a :: chunk => by
      rw [List.map_cons, map_lookupPrice_nil chunk, lookupPrice_nil, List.length_cons,
        List.replicate_succ]

/-- A constant batch scenario: the same attempt script for every batch, every
chunk identical. -/
theorem runBatches_const (attl : List RAttempt) (data : List Coin)
    (h : resolveBatch attl = some data) :
    ∀ (q : Nat) (chunk : List String),
      runBatches (List.replicate q attl) (List.replicate q chunk) =
        some (flat (List.replicate q (chunk.map (fun id => lookupPrice data id))))
  | 0, chunk => rfl
  | q + 1, chunk => by
      rw [List.replicate_succ, List.replicate_succ]
      simp only [runBatches, nth_cons_zero, List.drop_succ_cons, List.drop_zero, h,
        runBatches_const attl data h q chunk]
      rw [List.replicate_succ, flat]

/-- Frame extraction for a finished refresh run: the cache is untouched and
the grid is the old grid with only the single-column `C2` range write. -/
theorem sync_refresh_frame (fO : List (List FAttempt)) (rO : List (List RAttempt))
    (s s' : SysState) (hg : s.grid 1 1 = CellV.str "ID")
    (h : sync_to_sheet false fO rO s = .done s') :
    s'.cache = s.cache ∧
    ∃ ps, refresh_prices rO (refresh_ids s) = some ps ∧
      s'.grid = updateRange s.grid 2 3 (ps.map (fun p => [cellOf p])) := by
  rw [sync_refresh_branch fO rO s hg] at h
  unfold update_prices_only at h
  cases hps : refresh_prices rO (refresh_ids s) with
  | none =>
      rw [hps] at h
      simp only [Option.map_none'] at h
      cases h
  | some ps =>
      rw [hps] at h
      simp only [Option.map_some'] at h
      have h' : SyncRes.done ⟨updateRange s.grid 2 3 (ps.map (fun p => [cellOf p])), s.cache⟩ =
          SyncRes.done s' := h
      injection h' with h''
      rw [← h'']
      exact ⟨rfl, ps, rfl, rfl⟩

/-! ### A concrete replicate-shaped refresh scenario, shared by witnesses -/

/-- A worksheet whose only content is the header marker. -/
def wGrid : Grid := fun r c => if r = 1 ∧ c = 1 then CellV.str "ID" else CellV.blank

/-- A full frozen-id cache. -/
def wCache : List String := List.replicate TOTAL_COINS "x"

/-- Every refresh batch answers immediately with an empty record list. -/
def wOracleR : List (List RAttempt) := List.replicate 8 [RAttempt.ok []]

/-- The resulting price column: all sentinels. -/
def wPs : List (Option Int) := List.replicate TOTAL_COINS none

theorem refresh_prices_wCache :
    refresh_prices wOracleR (wCache.take TOTAL_COINS) = some wPs := by
  have htake : wCache.take TOTAL_COINS = wCache := by
    show (List.replicate TOTAL_COINS "x").take TOTAL_COINS = wCache
    rw [List.take_replicate, Nat.min_self]
    rfl
  rw [htake]
  show runBatches wOracleR (chunksOf PER_PAGE wCache) = some wPs
  have hchunks : chunksOf PER_PAGE wCache = List.replicate 8 (List.replicate 250 "x") := by
    have h1 : wCache = List.replicate (8 * (249 + 1)) "x" := by
      show List.replicate TOTAL_COINS "x" = List.replicate (8 * (249 + 1)) "x"
      rw [show TOTAL_COINS = 8 * (249 + 1) from by norm_num [TOTAL_COINS]]
    rw [h1]
    exact chunksOf_replicate 8 249 "x"
  rw [hchunks]
  have hrun := runBatches_const [RAttempt.ok []] [] rfl 8 (List.replicate 250 "x")
  rw [show wOracleR = List.replicate 8 [RAttempt.ok []] from rfl, hrun]
  refine congrArg some ?_
  rw [map_lookupPrice_nil, List.length_replicate, flat_replicate_replicate]
  show List.replicate (8 * 250) (none : Option Int) = List.replicate TOTAL_COINS none
  rw [show (8 * 250 : Nat) = TOTAL_COINS from by norm_num [TOTAL_COINS]]

/-- A refresh run in the concrete scenario, from any state carrying the
marker and the full cache. -/
theorem sync_w (fO : List (List FAttempt)) (s : SysState)
    (hg : s.grid 1 1 = CellV.str "ID") (hc : s.cache = some wCache) :
    sync_to_sheet false fO wOracleR s =
      .done ⟨updateRange s.grid 2 3 (wPs.map (fun p => [cellOf p])), some wCache⟩ := by
  rw [sync_refresh_branch fO wOracleR s hg]
  have hids : refresh_ids s = wCache.take TOTAL_COINS :=
    refresh_ids_cache s wCache hc (by
      show TOTAL_COINS ≤ (List.replicate TOTAL_COINS "x").length
      rw [List.length_replicate])
  have hupd : update_prices_only wOracleR (refresh_ids s) s.grid =
      some (updateRange s.grid 2 3 (wPs.map (fun p => [cellOf p]))) := by
    rw [hids]
    unfold update_prices_only
    rw [refresh_prices_wCache]
    rfl
  rw [hupd, hc]

/-! ### Claim theorems -/

/-- C1: for every input id sequence, a terminating price refresh returns a
sequence of exactly the same length and order; the entry at position `i` is
the price-map lookup of that id in the response of its batch (`i / PER_PAGE`),
which is the upstream-returned price when present, and the empty sentinel
(`none`, written as `""`) when the response omits the id — in particular when
a non-429 HTTP error degraded the whole batch to the empty result set. -/
theorem claim_C1_refresh_alignment (rO : List (List RAttempt)) (ids : List String)
    (ps : List (Option Int)) (h : refresh_prices rO ids = some ps) :
    ps.length = ids.length ∧
    ∀ i, i < ids.length →
      ∃ d, resolveBatch (nth rO (i / PER_PAGE) []) = some d ∧
        nth ps i none = lookupPrice d (nth ids i "") :=
  runBatches_spec 249 ids.length ids (le_refl _) rO ps h

/-- Concrete refresh scenario for the C1 witness: one batch, upstream answers
for id `"a"` only. -/
def c1rO : List (List RAttempt) := [[RAttempt.ok [⟨"a", "", 5⟩]]]

/-- Witness for C1: ids `["a", "b"]` produce `[some 5, none]`. -/
theorem claim_C1_witness :
    (([some (5 : Int), none]).length = (["a", "b"] : List String).length) ∧
    ∀ i, i < (["a", "b"] : List String).length →
      ∃ d, resolveBatch (nth c1rO (i / PER_PAGE) []) = some d ∧
        nth ([some (5 : Int), none]) i none = lookupPrice d (nth (["a", "b"] : List String) i "") :=
  claim_C1_refresh_alignment c1rO ["a", "b"] [some 5, none] rfl

/-- C3: on an uninitialized first run whose full collection comes back empty,
the run returns with the destination grid and the local cache exactly as they
were: no write, no cache save. -/
theorem claim_C3_empty_abort (s : SysState) (fO : List (List FAttempt))
    (rO : List (List RAttempt)) (hh : acellA1 s.grid ≠ some "ID")
    (hf : fetch_top_coins_with_price fO = .done []) :
    sync_to_sheet false fO rO s = .done s := by
  rw [sync_full_branch false fO rO s (by simpa using hh), hf]
  rfl

/-- An entirely blank worksheet. -/
def blankGrid : Grid := fun _ _ => CellV.blank

/-- Witness for C3: blank store, first page of the collection hits a non-429
HTTP error immediately, so the collection is empty and the state survives. -/
theorem claim_C3_witness :
    sync_to_sheet false [[FAttempt.httpErr 500]] [] ⟨blankGrid, none⟩ =
      .done ⟨blankGrid, none⟩ :=
  claim_C3_empty_abort ⟨blankGrid, none⟩ [[FAttempt.httpErr 500]] []
    (by simp [acellA1, blankGrid]) rfl

/-- C10: when the `A1` marker read raises, the run treats the marker as absent
and performs the full load — full-range table overwrite plus cache save — even
if the store was in fact initialized; it neither aborts nor refreshes. -/
theorem claim_C10_a1_read_failure (s : SysState) (fO : List (List FAttempt))
    (rO : List (List RAttempt)) (coins : List Coin)
    (hf : fetch_top_coins_with_price fO = .done coins) (hne : coins ≠ []) :
    sync_to_sheet true fO rO s =
      .done ⟨write_full_table s.grid coins, some (coins.map (fun c => c.id))⟩ := by
  rw [sync_full_branch true fO rO s (by simp), hf]
  cases coins with
  | nil => exact absurd rfl hne
  | cons c cs => rfl

/-- Collection oracle for the C10 witness: one accepted page, then a fatal
error, so the collection returns 250 records. -/
def c10fO : List (List FAttempt) :=
  [[FAttempt.ok (.arr (List.replicate 250 ⟨"x", "", 0⟩))], [FAttempt.httpErr 500]]

/-- The records that collection returns. -/
def c10coins : List Coin := (List.replicate 250 (⟨"x", "", 0⟩ : Coin)).map mkRecord

/-- Witness for C10: the store carries the marker (`A1 = "ID"`), yet the run
full-loads because the read failed. -/
theorem claim_C10_witness :
    sync_to_sheet true c10fO [] ⟨wGrid, none⟩ =
      .done ⟨write_full_table wGrid c10coins, some (c10coins.map (fun c => c.id))⟩ :=
  claim_C10_a1_read_failure ⟨wGrid, none⟩ c10fO [] c10coins rfl (by decide)

/-- C2: when the destination store already carries the header marker
(`A1 = "ID"`), a run never consults the full collector (the result is the
same for every collection oracle) and performs no full-table write: after one
or even two consecutive runs, every cell of columns A and B and of the header
row is exactly as before. -/
theorem claim_C2_initialized_idempotent (s : SysState) (fO fO' : List (List FAttempt))
    (rO : List (List RAttempt)) (hg : s.grid 1 1 = CellV.str "ID") :
    (sync_to_sheet false fO rO s = sync_to_sheet false fO' rO s) ∧
    (∀ (s1 s2 : SysState) (fO2 : List (List FAttempt)) (rO2 : List (List RAttempt)),
      sync_to_sheet false fO rO s = .done s1 →
      sync_to_sheet false fO2 rO2 s1 = .done s2 →
      ∀ r c, c = 1 ∨ c = 2 ∨ r = 1 → s2.grid r c = s.grid r c) := by
  constructor
  · rw [sync_refresh_branch fO rO s hg, sync_refresh_branch fO' rO s hg]
  · intro s1 s2 fO2 rO2 h1 h2 r c hrc
    obtain ⟨hc1, ps1, hps1, hgrid1⟩ := sync_refresh_frame fO rO s s1 hg h1
    have hg1 : s1.grid 1 1 = CellV.str "ID" := by
      rw [hgrid1, updateRange_row_lt _ _ _ _ _ _ (by omega)]
      exact hg
    obtain ⟨hc2, ps2, hps2, hgrid2⟩ := sync_refresh_frame fO2 rO2 s1 s2 hg1 h2
    rcases hrc with hc' | hc' | hr'
    · rw [hgrid2, updateRange_col_ne _ _ _ _ _ _ (by omega), hgrid1,
        updateRange_col_ne _ _ _ _ _ _ (by omega)]
    · rw [hgrid2, updateRange_col_ne _ _ _ _ _ _ (by omega), hgrid1,
        updateRange_col_ne _ _ _ _ _ _ (by omega)]
    · rw [hgrid2, updateRange_row_lt _ _ _ _ _ _ (by omega), hgrid1,
        updateRange_row_lt _ _ _ _ _ _ (by omega)]

/-- Initialized store with a full cache, for the C2 and C5 witnesses. -/
def wS : SysState := ⟨wGrid, some wCache⟩

/-- State after one refresh run on `wS`. -/
def wS1 : SysState := ⟨updateRange wGrid 2 3 (wPs.map (fun p => [cellOf p])), some wCache⟩

/-- State after a second refresh run. -/
def wS2 : SysState := ⟨updateRange wS1.grid 2 3 (wPs.map (fun p => [cellOf p])), some wCache⟩

/-- Witness for C2: two refresh runs on the initialized store; the collector
oracle is irrelevant and marker plus ID/Ticker cells survive both runs. -/
theorem claim_C2_witness :
    (sync_to_sheet false [[FAttempt.httpErr 500]] wOracleR wS =
      sync_to_sheet false [] wOracleR wS) ∧
    wS2.grid 1 1 = wS.grid 1 1 ∧ wS2.grid 5 2 = wS.grid 5 2 := by
  have hg : wS.grid 1 1 = CellV.str "ID" := rfl
  have h1 : sync_to_sheet false [[FAttempt.httpErr 500]] wOracleR wS = .done wS1 :=
    sync_w [[FAttempt.httpErr 500]] wS hg rfl
  have hg1 : wS1.grid 1 1 = CellV.str "ID" := by
    show updateRange wGrid 2 3 (wPs.map (fun p => [cellOf p])) 1 1 = CellV.str "ID"
    rw [updateRange_row_lt _ _ _ _ _ _ (by omega)]
    rfl
  have h2 : sync_to_sheet false [] wOracleR wS1 = .done wS2 := sync_w [] wS1 hg1 rfl
  obtain ⟨hid, hframe⟩ :=
    claim_C2_initialized_idempotent wS [[FAttempt.httpErr 500]] [] wOracleR hg
  exact ⟨hid, hframe wS1 wS2 [] wOracleR h1 h2 1 1 (Or.inr (Or.inr rfl)),
    hframe wS1 wS2 [] wOracleR h1 h2 5 2 (Or.inr (Or.inl rfl))⟩

/-- C5: a refresh run with a valid cached universe mutates only the price
column: the cache is untouched, every cell outside column C is untouched, the
header cell `C1` and all rows beyond `TOTAL_COINS + 1` are untouched, and the
cells `C2 .. C(TOTAL_COINS + 1)` are exactly the `TOTAL_COINS` computed price
entries, so row `k > 1` keeps facing the `(k-2)`-th frozen identifier. -/
theorem claim_C5_price_column_only (s : SysState) (l : List String)
    (fO : List (List FAttempt)) (rO : List (List RAttempt)) (s' : SysState)
    (hg : s.grid 1 1 = CellV.str "ID") (hc : s.cache = some l)
    (hl : TOTAL_COINS ≤ l.length)
    (h : sync_to_sheet false fO rO s = .done s') :
    s'.cache = s.cache ∧
    (∀ r c, c ≠ 3 → s'.grid r c = s.grid r c) ∧
    (∀ r, r = 1 ∨ TOTAL_COINS + 1 < r → s'.grid r 3 = s.grid r 3) ∧
    ∃ ps, refresh_prices rO (l.take TOTAL_COINS) = some ps ∧ ps.length = TOTAL_COINS ∧
      ∀ r, 2 ≤ r → r ≤ TOTAL_COINS + 1 → s'.grid r 3 = cellOf (nth ps (r - 2) none) := by
  obtain ⟨hcache, ps, hps, hgrid⟩ := sync_refresh_frame fO rO s s' hg h
  rw [refresh_ids_cache s l hc hl] at hps
  have hlen : ps.length = TOTAL_COINS := by
    have := (runBatches_spec 249 (l.take TOTAL_COINS).length (l.take TOTAL_COINS)
      (le_refl _) rO ps hps).1
    rw [this, List.length_take]
    omega
  refine ⟨hcache, ?_, ?_, ps, hps, hlen, ?_⟩
  · intro r c hc3
    rw [hgrid, updateRange_col_ne _ _ _ _ _ _ hc3]
  · intro r hr
    rcases hr with hr | hr
    · rw [hgrid, updateRange_row_lt _ _ _ _ _ _ (by omega)]
    · rw [hgrid, updateRange_row_ge _ _ _ _ _ _ (by rw [List.length_map, hlen]; omega)]
  · intro r h2 h2T
    rw [hgrid, updateRange_hit _ _ _ ps r (by omega) (by rw [hlen]; omega)]

/-- Witness for C5 on the concrete scenario: the run writes all-sentinel
prices into `C2 .. C2001` and touches nothing else. -/
theorem claim_C5_witness :
    wS1.cache = wS.cache ∧
    (∀ r c, c ≠ 3 → wS1.grid r c = wS.grid r c) ∧
    (∀ r, r = 1 ∨ TOTAL_COINS + 1 < r → wS1.grid r 3 = wS.grid r 3) ∧
    ∃ ps, refresh_prices wOracleR (wCache.take TOTAL_COINS) = some ps ∧
      ps.length = TOTAL_COINS ∧
      ∀ r, 2 ≤ r → r ≤ TOTAL_COINS + 1 → wS1.grid r 3 = cellOf (nth ps (r - 2) none) :=
  claim_C5_price_column_only wS wCache [] wOracleR wS1 rfl rfl
    (by show TOTAL_COINS ≤ (List.replicate TOTAL_COINS "x").length
        rw [List.length_replicate])
    (sync_w [] wS rfl rfl)

/-! ### Concrete collection scenarios -/

/-- A page payload: 250 copies of the same coin (the upstream ranking can
shift between page requests, so repeats across pages are possible). -/
def c4page : List Coin := List.replicate 250 ⟨"x", "", 0⟩

/-- Every page answers immediately with that payload. -/
def c4rO : List (List FAttempt) := List.replicate 8 [FAttempt.ok (.arr c4page)]

/-- The accepted page payloads. -/
def c4ds : List (List Coin) := List.replicate 8 c4page

theorem c4_accepted :
    ∀ k, k < PAGES → resolvePage PER_PAGE (nth c4rO k []) = .accepted (nth c4ds k []) := by
  intro k hk
  have hP : PAGES = 8 := by norm_num [PAGES, TOTAL_COINS, PER_PAGE]
  have hk8 : k < 8 := by omega
  rw [show c4rO = List.replicate 8 [FAttempt.ok (.arr c4page)] from rfl,
    nth_replicate 8 k _ _ hk8, show c4ds = List.replicate 8 c4page from rfl,
    nth_replicate 8 k _ _ hk8]
  have hlen : ¬ (c4page.length < PER_PAGE) := by
    simp only [c4page, List.length_replicate]
    decide
  simp only [resolvePage]
  rw [if_neg hlen]

theorem c4ds_len : c4ds.length = PAGES := by
  rw [show c4ds = List.replicate 8 c4page from rfl, List.length_replicate]
  norm_num [PAGES, TOTAL_COINS, PER_PAGE]

theorem c4_fetch :
    fetch_top_coins_with_price c4rO =
      .done (List.replicate TOTAL_COINS (mkRecord ⟨"x", "", 0⟩)) := by
  have hcomplete := collectGo_complete PER_PAGE TOTAL_COINS PAGES c4ds c4rO [] c4ds_len c4_accepted
  have hflat : flat c4ds = List.replicate 2000 (⟨"x", "", 0⟩ : Coin) := by
    show flat (List.replicate 8 (List.replicate 250 _)) = _
    rw [flat_replicate_replicate, show (8 * 250 : Nat) = 2000 from by norm_num]
  calc fetch_top_coins_with_price c4rO
      = collectGo PER_PAGE TOTAL_COINS c4rO PAGES [] := rfl
    _ = .done (([] ++ (flat c4ds).map mkRecord).take TOTAL_COINS) := hcomplete
    _ = .done (List.replicate TOTAL_COINS (mkRecord ⟨"x", "", 0⟩)) := by
        rw [List.nil_append, hflat, List.map_replicate, List.take_replicate,
          show min TOTAL_COINS 2000 = TOTAL_COINS from by norm_num [TOTAL_COINS]]

/-- C4 (amended): a successful full collection — every page accepted — returns
exactly `TOTAL_COINS` records whose ids are the upstream-delivered ids in page
order, truncated to `TOTAL_COINS`; the code performs no deduplication, so the
ids are pairwise distinct exactly when the upstream-delivered ids are. -/
theorem claim_C4_full_success (rO : List (List FAttempt)) (ds : List (List Coin))
    (hlen : ds.length = PAGES)
    (hacc : ∀ k, k < PAGES → resolvePage PER_PAGE (nth rO k []) = .accepted (nth ds k [])) :
    ∃ items, fetch_top_coins_with_price rO = .done items ∧
      items.length = TOTAL_COINS ∧
      items.map (fun c => c.id) = ((flat ds).map (fun c => c.id)).take TOTAL_COINS ∧
      (((flat ds).map (fun c => c.id)).Nodup → (items.map (fun c => c.id)).Nodup) := by
  have hcomplete := collectGo_complete PER_PAGE TOTAL_COINS PAGES ds rO [] hlen hacc
  have hge : TOTAL_COINS ≤ (flat ds).length := by
    have h1 : ds.length * PER_PAGE ≤ (flat ds).length := by
      refine length_flat_ge PER_PAGE ds ?_
      intro k hk
      exact resolvePage_accepted_ge PER_PAGE (nth rO k []) (nth ds k []) (hacc k (hlen ▸ hk))
    have h2 : TOTAL_COINS = PAGES * PER_PAGE := by norm_num [PAGES, TOTAL_COINS, PER_PAGE]
    rw [h2, ← hlen]
    exact h1
  have hmap : (((flat ds).map mkRecord).take TOTAL_COINS).map (fun c => c.id) =
      ((flat ds).map (fun c => c.id)).take TOTAL_COINS := by
    rw [List.map_take, List.map_map]
    rfl
  refine ⟨((flat ds).map mkRecord).take TOTAL_COINS, by simpa using hcomplete, ?_, hmap, ?_⟩
  · rw [List.length_take, List.length_map]
    exact Nat.min_eq_left hge
  · intro hnd
    rw [hmap]
    exact List.Nodup.sublist (List.take_sublist _ _) hnd

/-- Witness for C4 at the concrete all-pages-accepted oracle. -/
theorem claim_C4_witness :
    ∃ items, fetch_top_coins_with_price c4rO = .done items ∧
      items.length = TOTAL_COINS ∧
      items.map (fun c => c.id) = ((flat c4ds).map (fun c => c.id)).take TOTAL_COINS ∧
      (((flat c4ds).map (fun c => c.id)).Nodup → (items.map (fun c => c.id)).Nodup) :=
  claim_C4_full_success c4rO c4ds c4ds_len c4_accepted

/-- Counterexample to C4 as stated: a fully successful collection (every page
accepted) whose returned ids are all equal, hence not pairwise distinct — the
code never deduplicates what the upstream sends. -/
theorem claim_C4_counterexample :
    (∀ k, k < PAGES → resolvePage PER_PAGE (nth c4rO k []) = .accepted (nth c4ds k [])) ∧
    resultIds (fetch_top_coins_with_price c4rO) = some (List.replicate TOTAL_COINS "x") ∧
    ¬ (List.replicate TOTAL_COINS "x").Nodup := by
  refine ⟨c4_accepted, ?_, ?_⟩
  · rw [c4_fetch]
    show some ((List.replicate TOTAL_COINS (mkRecord ⟨"x", "", 0⟩)).map (fun c => c.id)) = _
    rw [List.map_replicate]
    rfl
  · rw [List.nodup_replicate]
    norm_num [TOTAL_COINS]

/-- C6 (amended): whenever no accepted page over-delivers (more than
`PER_PAGE` records), any returned collection — full completion or fatal
abort — has at most `TOTAL_COINS` records. -/
theorem claim_C6_length_bound (rO : List (List FAttempt)) (items : List Coin)
    (hok : rO.all (pageLenOK PER_PAGE) = true)
    (h : fetch_top_coins_with_price rO = .done items) :
    items.length ≤ TOTAL_COINS :=
  collectGo_len_bound (TOTAL_COINS / PER_PAGE) rO [] items hok
    (by norm_num [TOTAL_COINS, PER_PAGE]) h

/-- Witness for C6: a first-page fatal error returns the empty collection,
well within the bound. -/
theorem claim_C6_witness : ([] : List Coin).length ≤ TOTAL_COINS :=
  claim_C6_length_bound [[FAttempt.httpErr 500]] [] (by decide) rfl

/-- An over-delivering page: 2500 records in one accepted payload. -/
def c6big : List Coin := List.replicate 2500 ⟨"x", "", 0⟩

/-- Oracle for the C6 counterexample: over-delivering page, then a fatal
error. -/
def c6rO : List (List FAttempt) := [[FAttempt.ok (.arr c6big)], [FAttempt.httpErr 500]]

theorem c6_fetch : fetch_top_coins_with_price c6rO = .done (c6big.map mkRecord) := by
  have hacc0 : ∀ j, j < 1 →
      resolvePage PER_PAGE (nth c6rO j []) = .accepted (nth [c6big] j []) := by
    intro j hj
    have hj0 : j = 0 := by omega
    subst hj0
    show resolvePage PER_PAGE [FAttempt.ok (.arr c6big)] = .accepted c6big
    have hlen : ¬ (c6big.length < PER_PAGE) := by
      simp only [c6big, List.length_replicate]
      decide
    simp only [resolvePage]
    rw [if_neg hlen]
  have hfatal : resolvePage PER_PAGE (nth c6rO 1 []) = .fatal := by
    show resolvePage PER_PAGE [FAttempt.httpErr 500] = .fatal
    decide
  have h := collectGo_fatal PER_PAGE TOTAL_COINS 1 (TOTAL_COINS / PER_PAGE) [c6big] c6rO []
    (by simp) (by norm_num [TOTAL_COINS, PER_PAGE]) hacc0 hfatal
  calc fetch_top_coins_with_price c6rO
      = collectGo PER_PAGE TOTAL_COINS c6rO (TOTAL_COINS / PER_PAGE) [] := rfl
    _ = .done ([] ++ (flat [c6big]).map mkRecord) := h
    _ = .done (c6big.map mkRecord) := by rw [List.nil_append, flat_singleton]

/-- Counterexample to C6 as stated: with an over-delivering accepted page
followed by a fatal abort, the collection returns 2500 records — the fatal
path returns the accumulator unsliced, so the `≤ TOTAL_COINS` bound fails. -/
theorem claim_C6_counterexample :
    resultLen (fetch_top_coins_with_price c6rO) = some 2500 ∧ ¬ (2500 ≤ TOTAL_COINS) := by
  constructor
  · rw [c6_fetch]
    show some ((c6big.map mkRecord).length) = some 2500
    rw [List.length_map, show c6big.length = 2500 from by
      simp only [c6big, List.length_replicate]]
  · norm_num [TOTAL_COINS]

/-- C7: with a universe size `t` that is not a multiple of the page size `p`,
a fully successful collection (each of the `t / p` pages accepted with exactly
`p` records) returns `(t / p) * p` records — never `t`: the remainder is
silently dropped by the integer page count. -/
theorem claim_C7_page_truncation (p t : Nat) (rO : List (List FAttempt))
    (ds : List (List Coin)) (_hp : 0 < p) (hndvd : ¬ p ∣ t) (hlen : ds.length = t / p)
    (hacc : ∀ k, k < t / p → resolvePage p (nth rO k []) = .accepted (nth ds k []))
    (hexact : ∀ k, k < t / p → (nth ds k []).length = p) :
    ∃ items, fetchPages p t rO = .done items ∧
      items.length = (t / p) * p ∧ items.length ≠ t := by
  have hcomplete := collectGo_complete p t (t / p) ds rO [] hlen hacc
  have hflat : (flat ds).length = (t / p) * p := by
    have := length_flat_eq p ds (fun k hk => hexact k (hlen ▸ hk))
    rw [this, hlen]
  have hle : (t / p) * p ≤ t := Nat.div_mul_le_self t p
  have hne : (t / p) * p ≠ t := by
    intro heq
    exact hndvd ⟨t / p, by rw [Nat.mul_comm]; exact heq.symm⟩
  refine ⟨((flat ds).map mkRecord).take t, by simpa using hcomplete, ?_, ?_⟩
  · rw [List.length_take, List.length_map, hflat]
    exact Nat.min_eq_right hle
  · rw [List.length_take, List.length_map, hflat, Nat.min_eq_right hle]
    exact hne

theorem c7_len : c4ds.length = 2100 / 250 := by
  rw [show c4ds = List.replicate 8 c4page from rfl, List.length_replicate]

theorem c7_acc :
    ∀ k, k < 2100 / 250 → resolvePage 250 (nth c4rO k []) = .accepted (nth c4ds k []) := by
  intro k hk
  refine c4_accepted k ?_
  rw [show PAGES = 8 from by norm_num [PAGES, TOTAL_COINS, PER_PAGE]]
  omega

theorem c7_exact : ∀ k, k < 2100 / 250 → (nth c4ds k []).length = 250 := by
  intro k hk
  have hk8 : k < 8 := by omega
  rw [show c4ds = List.replicate 8 c4page from rfl, nth_replicate 8 k _ _ hk8]
  simp only [c4page, List.length_replicate]

/-- Witness for C7: page size 250, hypothetical universe size 2100; the eight
full pages yield 2000 records, not 2100. -/
theorem claim_C7_witness :
    ∃ items, fetchPages 250 2100 c4rO = .done items ∧
      items.length = (2100 / 250) * 250 ∧ items.length ≠ 2100 :=
  claim_C7_page_truncation 250 2100 c4rO c4ds (by norm_num)
    (by rintro ⟨c, hc⟩; omega) c7_len c7_acc c7_exact

/-- C8: a page whose retry loop hits a non-429 HTTP error ends the collection
at once: the records of the earlier completed pages are returned (no
exception, no later page consulted — the result is fixed whatever the oracle
holds beyond the failing page), and the failing page itself is never retried
(the attempts after the error are irrelevant to the page outcome). -/
theorem claim_C8_fatal_stops (rO : List (List FAttempt)) (ds : List (List Coin)) (k : Nat)
    (hlen : ds.length = k) (hk : k < PAGES)
    (hacc : ∀ j, j < k → resolvePage PER_PAGE (nth rO j []) = .accepted (nth ds j []))
    (hfatal : resolvePage PER_PAGE (nth rO k []) = .fatal) :
    fetch_top_coins_with_price rO = .done ((flat ds).map mkRecord) ∧
    (∀ (pre rest : List FAttempt) (code : Nat),
      (∀ a ∈ pre, retriableB PER_PAGE a = true) → code ≠ 429 →
      resolvePage PER_PAGE (pre ++ FAttempt.httpErr code :: rest) = .fatal) := by
  constructor
  · have h := collectGo_fatal PER_PAGE TOTAL_COINS k (TOTAL_COINS / PER_PAGE) ds rO []
      hlen hk hacc hfatal
    calc fetch_top_coins_with_price rO
        = collectGo PER_PAGE TOTAL_COINS rO (TOTAL_COINS / PER_PAGE) [] := rfl
      _ = .done ([] ++ (flat ds).map mkRecord) := h
      _ = .done ((flat ds).map mkRecord) := by rw [List.nil_append]
  · intro pre rest code hpre hcode
    rw [resolvePage_skip PER_PAGE pre (FAttempt.httpErr code :: rest) hpre]
    simp only [resolvePage]
    rw [if_neg hcode]

/-- Witness for C8: the very first page fails with HTTP 500; the collection
returns the (empty) accumulation. -/
theorem claim_C8_witness :
    fetch_top_coins_with_price [[FAttempt.httpErr 500]] =
      .done ((flat ([] : List (List Coin))).map mkRecord) ∧
    (∀ (pre rest : List FAttempt) (code : Nat),
      (∀ a ∈ pre, retriableB PER_PAGE a = true) → code ≠ 429 →
      resolvePage PER_PAGE (pre ++ FAttempt.httpErr code :: rest) = .fatal) :=
  claim_C8_fatal_stops [[FAttempt.httpErr 500]] [] 0 rfl
    (by norm_num [PAGES, TOTAL_COINS, PER_PAGE])
    (fun j hj => absurd hj (Nat.not_lt_zero j)) (by decide)

/-- A good follow-up page for the C9 evaluation. -/
def c9good : List Coin := List.replicate 250 ⟨"b", "", 1⟩

/-- C9 at the failing input: a short list payload and a sized non-list
payload (a dict) are indeed retried and never contribute, but a payload
without `len()` (a bare JSON number) is not retried — evaluating `len(data)`
inside the `ValueError` message raises an uncaught `TypeError` that aborts
the whole collection, contradicting the retry-indefinitely claim. -/
theorem claim_C9_malformed_payload :
    resolvePage PER_PAGE [FAttempt.ok (.arr []), FAttempt.ok (.arr c9good)] =
      .accepted c9good ∧
    resolvePage PER_PAGE [FAttempt.ok (.sized 3), FAttempt.ok (.arr c9good)] =
      .accepted c9good ∧
    resolvePage PER_PAGE [FAttempt.ok .unsized, FAttempt.ok (.arr c9good)] = .typeErr ∧
    fetch_top_coins_with_price [[FAttempt.ok .unsized]] = .typeErr :=
  ⟨by decide, by decide, rfl, rfl⟩
